import Mathlib

/-!
Shallow embedding of the queuectl job-queue engine.

The source is a Node.js CLI job queue backed by MongoDB:
* `src/storage.js` — the store: `createJob`, `getJob`, `updateJob`,
  `acquireJob` (an atomic `findOneAndUpdate`), `retryDLQJob`.
* `queue.js` — the lifecycle layer: `enqueue`, `completeJob`, `failJob`,
  `releaseJob`, `retryDLQJob`.
* `src/utils.js` — `calculateBackoff`.
* the `Config` class — configured defaults `max_retries`, `backoff_base`.

The store is modelled as a list of job records; every operation of the
source becomes a pure function from a store (plus a current time) to a
result and a new store.  `acquireJob` is one such function, mirroring the
fact that in the source it is a single atomic conditional update
(`findOneAndUpdate`): an arbitrary interleaving of N concurrent calls is
exactly a sequence of N applications of this function in some order.

Times are naturals (milliseconds); the ISO-string comparison `$lte` of the
source is order-isomorphic to comparison of these naturals.  JavaScript
falsiness of strings and numbers (empty string and 0 are falsy) is made
explicit in the helper functions below.
-/

/-- Job states of the lifecycle: `pending | processing | completed | failed | dead`. -/
inductive JobState where
  | pending
  | processing
  | completed
  | failed
  | dead
deriving DecidableEq, Repr

/-- A persisted job record, the fields of the document built in
`Storage.createJob` (storage.js lines 106-119). -/
structure Job where
  id : String
  command : String
  state : JobState
  attempts : Nat
  max_retries : Nat
  created_at : Nat
  updated_at : Nat
  next_retry_at : Option Nat
  worker_id : Option String
  output : Option String
  error : Option String
deriving DecidableEq, Repr

/-- The store is the collection of job documents. -/
abbrev Store := List Job

/-- Configured defaults consumed by the queue layer (`Config` defaults:
`max_retries` 3, `backoff_base` 2). -/
structure Config where
  max_retries : Nat
  backoff_base : Nat
deriving DecidableEq, Repr

/-- The structured execution result fed into `completeJob` and `failJob`:
`stdout`, `stderr` (strings, possibly empty) and an optional `error`
message. -/
structure ExecResult where
  stdout : String
  stderr : String
  error : Option String
deriving DecidableEq, Repr

/-- The caller-supplied data of `Queue.enqueue(jobData)`: each field may be
absent (JavaScript `undefined`). -/
structure JobSpec where
  id : Option String
  command : Option String
  max_retries : Option Nat
deriving DecidableEq, Repr

/-- The job object `Queue.enqueue` builds and hands to `Storage.createJob`. -/
structure NewJob where
  id : String
  command : String
  state : JobState
  attempts : Nat
  max_retries : Nat
deriving DecidableEq, Repr

/-- The user-facing errors of the lifecycle layer. -/
inductive QueueError where
  | invalidJob
  | duplicateJob
  | notInDLQ
deriving DecidableEq, Repr

/-- JavaScript truthiness of an optional string: `undefined` and the empty
string are falsy. -/
def optStrTruthy : Option String → Bool
  | none => false
  | some s => decide (s ≠ "")

/-- The idiom `a || b || c` on strings, as in
`result.stderr || result.error || generic` (queue.js lines 99 and 112). -/
def jsOrStr (a : String) (b : Option String) (c : String) : String :=
  if a ≠ "" then a
  else
    match b with
    | some e => if e ≠ "" then e else c
    | none => c

/-- The idiom `n || d` on an optional number: `undefined` and `0` are
falsy, so they yield the default. -/
def jsOrNat : Option Nat → Nat → Nat
  | none, d => d
  | some n, d => if n = 0 then d else n

/-- calculateBackoff from utils.js lines 6-8: `Math.pow(base, attempts)`. -/
def calculateBackoff (attempts : Nat) (base : Nat := 2) : Nat :=
  base ^ attempts

/-- Storage.getJob (storage.js lines 125-129): point lookup by the `id`
field. -/
def Storage.getJob (s : Store) (i : String) : Option Job :=
  s.find? (fun j => decide (j.id = i))

/-- The shape of a MongoDB `updateOne {id} {$set : ...}`: rewrite the
documents whose `id` field equals `i` by `g`, leave the rest alone. -/
def updateById (i : String) (g : Job → Job) (s : Store) : Store :=
  s.map (fun j => if j.id = i then g j else j)

/-- Storage.updateJob (storage.js lines 131-141): apply the field updates
`g` plus a refreshed `updated_at` to the job with id `i`, then return the
job looked up again, together with the new store. -/
def Storage.updateJob (s : Store) (i : String) (g : Job → Job) (now : Nat) :
    Option Job × Store :=
  let s' := updateById i (fun j => { g j with updated_at := now }) s
  (Storage.getJob s' i, s')

/-- Storage.createJob (storage.js lines 102-123): build the document with
the defaults of lines 110-118 (`state || 'pending'` and `attempts || 0`
are identities here since the queue passes `pending` and a natural;
`max_retries || 3` defaults a falsy 0), insert it (duplicate key rejected
by the unique index on `id`), and return the fresh lookup. -/
def Storage.createJob (s : Store) (nj : NewJob) (now : Nat) :
    Option Job × Store :=
  match Storage.getJob s nj.id with
  | some _ => (none, s)
  | none =>
      let doc : Job :=
        { id := nj.id
          command := nj.command
          state := nj.state
          attempts := nj.attempts
          max_retries := if nj.max_retries = 0 then 3 else nj.max_retries
          created_at := now
          updated_at := now
          next_retry_at := none
          worker_id := none
          output := none
          error := none }
      let s' := s ++ [doc]
      (Storage.getJob s' nj.id, s')

/-- Eligibility predicate of the acquire query (storage.js lines 149-160):
`state = pending`, or `state = failed` with `next_retry_at` null or ≤ now. -/
def eligible (now : Nat) (j : Job) : Bool :=
  decide (j.state = JobState.pending) ||
    (decide (j.state = JobState.failed) &&
      match j.next_retry_at with
      | none => true
      | some t => decide (t ≤ now))

/-- Choice between a candidate and the best of the rest: keep the one with
the strictly smaller `created_at`. -/
def pickOlder (a : Job) : Option Job → Option Job
  | none => some a
  | some b => if a.created_at < b.created_at then some a else some b

/-- The selection of `findOneAndUpdate` under `sort {created_at : 1}`:
an eligible document of minimal `created_at`, or none. -/
def findEligible (now : Nat) : Store → Option Job
  | [] => none
  | j :: rest =>
      if eligible now j then pickOlder j (findEligible now rest)
      else findEligible now rest

/-- The `$set` of the acquire update (storage.js lines 166-172). -/
def setProcessing (wid : String) (now : Nat) (j : Job) : Job :=
  { j with state := JobState.processing, worker_id := some wid, updated_at := now }

/-- Storage.acquireJob (storage.js lines 143-180): one atomic conditional
update — select the oldest eligible job and transition it to processing
under := the given worker, in a single indivisible step on the store;
return the post-update document or none. -/
def Storage.acquireJob (s : Store) (wid : String) (now : Nat) :
    Option Job × Store :=
  match findEligible now s with
  | none => (none, s)
  | some j => (some (setProcessing wid now j),
               updateById j.id (setProcessing wid now) s)

/-- Storage.retryDLQJob (storage.js lines 222-238): require an existing
job in state dead, else fail; reset it to pending with the given
`max_retries`. -/
def Storage.retryDLQJob (s : Store) (i : String) (maxRetries : Nat) (now : Nat) :
    Except QueueError Job × Store :=
  match Storage.getJob s i with
  | none => (Except.error QueueError.notInDLQ, s)
  | some job =>
      if job.state = JobState.dead then
        let p := Storage.updateJob s i (fun j =>
          { j with state := JobState.pending
                   attempts := 0
                   max_retries := maxRetries
                   next_retry_at := none
                   worker_id := none
                   error := none }) now
        (match p.1 with
         | some j => Except.ok j
         | none => Except.error QueueError.notInDLQ, p.2)
      else (Except.error QueueError.notInDLQ, s)

/-- Queue.enqueue (queue.js lines 11-32): validate `id` and `command`
(JavaScript falsiness), reject a duplicate id, then create the job with
`state = pending`, `attempts = 0` and
`max_retries = jobData.max_retries || config default`. -/
def Queue.enqueue (cfg : Config) (s : Store) (spec : JobSpec) (now : Nat) :
    Except QueueError Job × Store :=
  if optStrTruthy spec.id && optStrTruthy spec.command then
    match Storage.getJob s (spec.id.getD "") with
    | some _ => (Except.error QueueError.duplicateJob, s)
    | none =>
        let nj : NewJob :=
          { id := spec.id.getD ""
            command := spec.command.getD ""
            state := JobState.pending
            attempts := 0
            max_retries := jsOrNat spec.max_retries cfg.max_retries }
        let p := Storage.createJob s nj now
        (match p.1 with
         | some j => Except.ok j
         | none => Except.error QueueError.duplicateJob, p.2)
  else (Except.error QueueError.invalidJob, s)

/-- Queue.completeJob (queue.js lines 72-84): set state completed, record
the standard output, clear the worker; record `error` only when `stderr`
is truthy (non-empty). -/
def Queue.completeJob (s : Store) (jobId : String) (r : ExecResult) (now : Nat) :
    Option Job × Store :=
  Storage.updateJob s jobId (fun j =>
    let j' := { j with state := JobState.completed
                       output := some r.stdout
                       worker_id := none }
    if r.stderr ≠ "" then { j' with error := some r.stderr } else j') now

/-- Queue.failJob (queue.js lines 86-118): read the job (none if absent),
increment attempts; at or beyond the retry budget move it to dead with
`next_retry_at` cleared, otherwise to failed with
`next_retry_at = now + calculateBackoff(attempts) * 1000`; record the
error by the `stderr || error || generic` preference either way. -/
def Queue.failJob (cfg : Config) (s : Store) (jobId : String) (r : ExecResult)
    (_wid : String) (now : Nat) : Option Job × Store :=
  match Storage.getJob s jobId with
  | none => (none, s)
  | some job =>
      let attempts := job.attempts + 1
      if attempts ≥ job.max_retries then
        Storage.updateJob s jobId (fun j =>
          { j with state := JobState.dead
                   attempts := attempts
                   error := some (jsOrStr r.stderr r.error "Max retries exceeded")
                   output := some r.stdout
                   worker_id := none
                   next_retry_at := none }) now
      else
        let delaySeconds := calculateBackoff attempts cfg.backoff_base
        let nextRetryAt := now + delaySeconds * 1000
        Storage.updateJob s jobId (fun j =>
          { j with state := JobState.failed
                   attempts := attempts
                   error := some (jsOrStr r.stderr r.error "Job execution failed")
                   output := some r.stdout
                   worker_id := none
                   next_retry_at := some nextRetryAt }) now

/-- Queue.releaseJob (queue.js lines 120-133): a processing job goes back
to pending with the worker cleared; any other job is returned unchanged
with no store write. -/
def Queue.releaseJob (s : Store) (jobId : String) (now : Nat) :
    Option Job × Store :=
  match Storage.getJob s jobId with
  | none => (none, s)
  | some job =>
      if job.state = JobState.processing then
        Storage.updateJob s jobId (fun j =>
          { j with state := JobState.pending, worker_id := none }) now
      else (some job, s)

/-- Queue.retryDLQJob (queue.js lines 63-66): delegate to the store with
the currently configured default `max_retries`. -/
def Queue.retryDLQJob (cfg : Config) (s : Store) (i : String) (now : Nat) :
    Except QueueError Job × Store :=
  Storage.retryDLQJob s i cfg.max_retries now

/-- A sequence of acquire calls, one per worker id, in the given order —
an arbitrary interleaving of concurrent callers, each call being one
atomic step on the store. -/
def runAcquires (now : Nat) : Store → List String → List (Option Job) × Store
  | s, [] => ([], s)
  | s, w :: ws =>
      let p := Storage.acquireJob s w now
      let q := runAcquires now p.2 ws
      (p.1 :: q.1, q.2)

/-- The number of jobs currently eligible for acquisition. -/
def countEligible (now : Nat) (s : Store) : Nat :=
  s.countP (fun j => eligible now j)

/-! ### Basic lemmas about the store primitives -/

theorem setProcessing_id (w : String) (now : Nat) (j : Job) :
    (setProcessing w now j).id = j.id := rfl

theorem setProcessing_state (w : String) (now : Nat) (j : Job) :
    (setProcessing w now j).state = JobState.processing := rfl

theorem eligible_setProcessing (now now' : Nat) (w : String) (j : Job) :
    eligible now' (setProcessing w now j) = false := rfl

theorem eligible_state {now : Nat} {j : Job} (h : eligible now j = true) :
    j.state = JobState.pending ∨ j.state = JobState.failed := by
  by_cases hp : j.state = JobState.pending
  · exact Or.inl hp
  · right
    unfold eligible at h
    rw [decide_eq_false hp, Bool.false_or, Bool.and_eq_true] at h
    exact of_decide_eq_true h.1

theorem Storage.getJob_mem {s : Store} {i : String} {j : Job}
    (h : Storage.getJob s i = some j) : j ∈ s ∧ j.id = i := by
  refine ⟨List.mem_of_find?_eq_some h, ?_⟩
  have hp := List.find?_some h
  simpa using hp

theorem getJob_updateById (s : Store) (i : String) (g : Job → Job)
    (hg : ∀ j, (g j).id = j.id) :
    Storage.getJob (updateById i g s) i = (Storage.getJob s i).map g := by
  induction s with
  | nil => rfl
  | cons a t ih =>
      by_cases hai : a.id = i
      · simp [Storage.getJob, updateById, List.find?_cons, hai, hg]
      · simp only [Storage.getJob, updateById, List.map_cons, if_neg hai,
          List.find?_cons] at *
        simp only [hai, decide_False] at *
        exact ih

theorem map_id_updateById (i : String) (g : Job → Job) (s : Store)
    (hg : ∀ j, (g j).id = j.id) :
    (updateById i g s).map Job.id = s.map Job.id := by
  induction s with
  | nil => rfl
  | cons a t ih =>
      by_cases hai : a.id = i <;> simp [updateById, hai, hg] at * <;> exact ih

theorem mem_updateById {s : Store} {i : String} {g : Job → Job} {j' : Job}
    (h : j' ∈ updateById i g s) :
    ∃ j ∈ s, j' = if j.id = i then g j else j := by
  obtain ⟨j, hj, hje⟩ := List.mem_map.mp h
  exact ⟨j, hj, hje.symm⟩

/-! ### Lemmas about eligible-job selection -/

theorem pickOlder_ne_none (a : Job) (r : Option Job) : pickOlder a r ≠ none := by
  cases r with
  | none => simp [pickOlder]
  | some b =>
      simp only [pickOlder]
      split <;> simp

theorem findEligible_eq_none {now : Nat} {s : Store} :
    findEligible now s = none ↔ ∀ j ∈ s, eligible now j = false := by
  induction s with
  | nil => simp [findEligible]
  | cons a t ih =>
      by_cases ha : eligible now a
      · simp only [findEligible, if_pos ha]
        constructor
        · intro h
          exact absurd h (pickOlder_ne_none a _)
        · intro hall
          exact absurd (hall a (List.mem_cons_self a t)) (by simp [ha])
      · simp only [findEligible, if_neg ha]
        rw [ih]
        constructor
        · intro h j hj
          rcases List.mem_cons.mp hj with rfl | hj
          · exact Bool.eq_false_iff.mpr ha
          · exact h j hj
        · intro h j hj
          exact h j (List.mem_cons_of_mem a hj)

theorem findEligible_some {now : Nat} {s : Store} {j : Job}
    (h : findEligible now s = some j) :
    j ∈ s ∧ eligible now j = true ∧
      ∀ k ∈ s, eligible now k = true → j.created_at ≤ k.created_at := by
  induction s generalizing j with
  | nil => simp [findEligible] at h
  | cons a t ih =>
      by_cases ha : eligible now a
      · simp only [findEligible, if_pos ha] at h
        cases ht : findEligible now t with
        | none =>
            rw [ht] at h
            simp only [pickOlder, Option.some_inj] at h
            subst h
            refine ⟨List.mem_cons_self a t, ha, ?_⟩
            intro k hk hke
            rcases List.mem_cons.mp hk with rfl | hk
            · exact Nat.le_refl _
            · rw [findEligible_eq_none.mp ht k hk] at hke
              exact absurd hke (by simp)
        | some b =>
            rw [ht] at h
            simp only [pickOlder] at h
            obtain ⟨hbmem, hbe, hbmin⟩ := ih ht
            by_cases hc : a.created_at < b.created_at
            · rw [if_pos hc, Option.some_inj] at h
              subst h
              refine ⟨List.mem_cons_self a t, ha, ?_⟩
              intro k hk hke
              rcases List.mem_cons.mp hk with rfl | hk
              · exact Nat.le_refl _
              · exact Nat.le_trans (Nat.le_of_lt hc) (hbmin k hk hke)
            · rw [if_neg hc, Option.some_inj] at h
              subst h
              refine ⟨List.mem_cons_of_mem a hbmem, hbe, ?_⟩
              intro k hk hke
              rcases List.mem_cons.mp hk with rfl | hk
              · exact Nat.le_of_not_lt hc
              · exact hbmin k hk hke
      · simp only [findEligible, if_neg ha] at h
        obtain ⟨hm, he, hmin⟩ := ih h
        refine ⟨List.mem_cons_of_mem a hm, he, ?_⟩
        intro k hk hke
        rcases List.mem_cons.mp hk with rfl | hk
        · exact absurd hke ha
        · exact hmin k hk hke

/-! ### Counting and exclusion lemmas for the acquire race -/

theorem countEligible_eq_zero {now : Nat} {s : Store} :
    countEligible now s = 0 ↔ findEligible now s = none := by
  rw [findEligible_eq_none]
  simp only [countEligible, List.countP_eq_zero]
  constructor
  · intro h j hj
    exact Bool.eq_false_iff.mpr (h j hj)
  · intro h j hj
    exact Bool.eq_false_iff.mp (h j hj)

theorem acquireJob_eq_none {s : Store} {w : String} {now : Nat}
    (hf : findEligible now s = none) :
    Storage.acquireJob s w now = (none, s) := by
  unfold Storage.acquireJob
  rw [hf]

theorem acquireJob_eq_some {s : Store} {w : String} {now : Nat} {j : Job}
    (hf : findEligible now s = some j) :
    Storage.acquireJob s w now
      = (some (setProcessing w now j), updateById j.id (setProcessing w now) s) := by
  unfold Storage.acquireJob
  rw [hf]

theorem countEligible_acquired {now : Nat} {s : Store} {j : Job} {w : String}
    (hnodup : (s.map Job.id).Nodup) (hmem : j ∈ s) (helig : eligible now j = true) :
    countEligible now (updateById j.id (setProcessing w now) s) + 1
      = countEligible now s := by
  obtain ⟨a, b, rfl⟩ := List.append_of_mem hmem
  rw [List.map_append, List.map_cons] at hnodup
  rw [List.nodup_append] at hnodup
  obtain ⟨-, hnc, hdisj⟩ := hnodup
  have hja : ∀ x ∈ a, x.id ≠ j.id := by
    intro x hx hxe
    exact hdisj (List.mem_map_of_mem Job.id hx)
      (hxe ▸ List.mem_cons_self j.id _)
  have hjb : ∀ x ∈ b, x.id ≠ j.id := by
    intro x hx hxe
    rcases List.nodup_cons.mp hnc with ⟨hni, -⟩
    exact hni (hxe ▸ List.mem_map_of_mem Job.id hx)
  have hmap_a : List.map (fun x => if x.id = j.id then setProcessing w now x else x) a
      = a := by
    have hfix : ∀ x ∈ a, (if x.id = j.id then setProcessing w now x else x) = id x := by
      intro x hx
      rw [if_neg (hja x hx)]
      rfl
    rw [List.map_congr_left hfix, List.map_id]
  have hmap_b : List.map (fun x => if x.id = j.id then setProcessing w now x else x) b
      = b := by
    have hfix : ∀ x ∈ b, (if x.id = j.id then setProcessing w now x else x) = id x := by
      intro x hx
      rw [if_neg (hjb x hx)]
      rfl
    rw [List.map_congr_left hfix, List.map_id]
  have hsplit : updateById j.id (setProcessing w now) (a ++ j :: b)
      = a ++ setProcessing w now j :: b := by
    unfold updateById
    rw [List.map_append, List.map_cons, if_pos rfl, hmap_a, hmap_b]
  rw [hsplit]
  simp [countEligible, List.countP_append, List.countP_cons,
    eligible_setProcessing, helig]
  omega

theorem ids_acquire (s : Store) (w : String) (now : Nat) :
    ((Storage.acquireJob s w now).2.map Job.id) = s.map Job.id := by
  cases hf : findEligible now s with
  | none => rw [acquireJob_eq_none hf]
  | some j =>
      rw [acquireJob_eq_some hf]
      exact map_id_updateById _ _ s (fun k => rfl)

/-- Every record with the given id in the store is already in state
processing — such a record can never again be handed out by acquire. -/
def idProcessing (s : Store) (i : String) : Prop :=
  ∀ k ∈ s, k.id = i → k.state = JobState.processing

theorem idProcessing_updateById_setProcessing {s : Store} {i jid : String}
    {w : String} {now : Nat} (h : idProcessing s i) :
    idProcessing (updateById jid (setProcessing w now) s) i := by
  intro k' hk' hid
  obtain ⟨k, hk, hke⟩ := mem_updateById hk'
  by_cases hkj : k.id = jid
  · rw [hke, if_pos hkj]
    rfl
  · rw [if_neg hkj] at hke
    rw [hke] at hid ⊢
    exact h k hk hid

theorem idProcessing_acquire {s : Store} {i : String} (w : String) (now : Nat)
    (h : idProcessing s i) :
    idProcessing (Storage.acquireJob s w now).2 i := by
  cases hf : findEligible now s with
  | none => rw [acquireJob_eq_none hf]; exact h
  | some j =>
      rw [acquireJob_eq_some hf]
      exact idProcessing_updateById_setProcessing h

theorem idProcessing_after_acquire {s : Store} {w : String} {now : Nat} {x : Job}
    (h : (Storage.acquireJob s w now).1 = some x) :
    idProcessing (Storage.acquireJob s w now).2 x.id := by
  cases hf : findEligible now s with
  | none =>
      rw [acquireJob_eq_none hf] at h
      exact absurd h (by simp)
  | some j =>
      rw [acquireJob_eq_some hf] at h ⊢
      simp only [Option.some_inj] at h
      intro k' hk' hid
      obtain ⟨k, hk, hke⟩ := mem_updateById hk'
      by_cases hkj : k.id = j.id
      · rw [hke, if_pos hkj]
        rfl
      · rw [if_neg hkj] at hke
        rw [hke] at hid
        rw [← h, setProcessing_id] at hid
        exact absurd hid hkj

theorem acquire_some_not_processing {s : Store} {i : String} {w : String}
    {now : Nat} {x : Job} (hp : idProcessing s i)
    (h : (Storage.acquireJob s w now).1 = some x) : x.id ≠ i := by
  cases hf : findEligible now s with
  | none =>
      rw [acquireJob_eq_none hf] at h
      exact absurd h (by simp)
  | some j =>
      rw [acquireJob_eq_some hf] at h
      simp only [Option.some_inj] at h
      obtain ⟨hmem, helig, -⟩ := findEligible_some hf
      intro hxi
      rw [← h] at hxi
      have hps : j.state = JobState.processing := hp j hmem hxi
      rcases eligible_state helig with he | he <;> rw [he] at hps <;> cases hps

theorem count_none_add_filterMap (l : List (Option Job)) :
    l.count none + (l.filterMap id).length = l.length := by
  induction l with
  | nil => rfl
  | cons a t ih =>
      cases a <;> simp [List.count_cons, List.filterMap_cons] <;> omega

theorem runAcquires_spec (now : Nat) (ws : List String) :
    ∀ s : Store, (s.map Job.id).Nodup →
      ((runAcquires now s ws).1.filterMap id).length
          = min ws.length (countEligible now s) ∧
      (runAcquires now s ws).1.length = ws.length ∧
      (∀ i, idProcessing s i →
        i ∉ ((runAcquires now s ws).1.filterMap id).map Job.id) ∧
      (((runAcquires now s ws).1.filterMap id).map Job.id).Nodup := by
  induction ws with
  | nil =>
      intro s _
      simp [runAcquires]
  | cons w ws ih =>
      intro s hnodup
      cases hf : findEligible now s with
      | none =>
          have hzero : countEligible now s = 0 := countEligible_eq_zero.mpr hf
          have hacq := @acquireJob_eq_none s w now hf
          have hstep : runAcquires now s (w :: ws)
              = ((none : Option Job) :: (runAcquires now s ws).1,
                 (runAcquires now s ws).2) := by
            simp [runAcquires, hacq]
          obtain ⟨ih1, ih2, ih3, ih4⟩ := ih s hnodup
          refine ⟨?_, ?_, ?_, ?_⟩
          · rw [hstep]
            simp only [List.filterMap_cons]
            simp [ih1, hzero]
          · rw [hstep]
            simp [ih2]
          · intro i hi
            rw [hstep]
            simp only [List.filterMap_cons]
            exact ih3 i hi
          · rw [hstep]
            simp only [List.filterMap_cons]
            exact ih4
      | some j =>
          obtain ⟨hmem, helig, -⟩ := findEligible_some hf
          have hacq := @acquireJob_eq_some s w now j hf
          have h1 : (Storage.acquireJob s w now).1 = some (setProcessing w now j) := by
            rw [hacq]
          have hstep : runAcquires now s (w :: ws)
              = (some (setProcessing w now j)
                   :: (runAcquires now (updateById j.id (setProcessing w now) s) ws).1,
                 (runAcquires now (updateById j.id (setProcessing w now) s) ws).2) := by
            simp [runAcquires, hacq]
          have hnodup' : ((updateById j.id (setProcessing w now) s).map Job.id).Nodup := by
            rw [map_id_updateById j.id (setProcessing w now) s (fun k => rfl)]
            exact hnodup
          have hcount : countEligible now (updateById j.id (setProcessing w now) s) + 1
              = countEligible now s := countEligible_acquired hnodup hmem helig
          obtain ⟨ih1, ih2, ih3, ih4⟩ := ih _ hnodup'
          have hxproc : idProcessing (updateById j.id (setProcessing w now) s)
              (setProcessing w now j).id := by
            have h2 := idProcessing_after_acquire h1
            rw [hacq] at h2
            exact h2
          have hpres : ∀ i, idProcessing s i →
              idProcessing (updateById j.id (setProcessing w now) s) i := by
            intro i hi
            have h2 := idProcessing_acquire w now hi
            rw [hacq] at h2
            exact h2
          refine ⟨?_, ?_, ?_, ?_⟩
          · rw [hstep]
            simp only [List.filterMap_cons]
            simp only [id, List.length_cons, List.length_cons]
            rw [ih1]
            omega
          · rw [hstep]
            simp [ih2]
          · intro i hi
            rw [hstep]
            simp only [List.filterMap_cons, id, List.map_cons]
            intro hmem'
            rcases List.mem_cons.mp hmem' with heq | hmem''
            · exact acquire_some_not_processing hi h1 heq.symm
            · exact ih3 i (hpres i hi) hmem''
          · rw [hstep]
            simp only [List.filterMap_cons, id, List.map_cons]
            rw [List.nodup_cons]
            exact ⟨ih3 _ hxproc, ih4⟩

/-! ### Equation lemmas for the lifecycle operations -/

theorem updateJob_fst (s : Store) (i : String) (g : Job → Job) (now : Nat)
    (hg : ∀ j, (g j).id = j.id) :
    (Storage.updateJob s i g now).1
      = (Storage.getJob s i).map (fun j => { g j with updated_at := now }) :=
  getJob_updateById s i (fun j => { g j with updated_at := now }) (fun j => hg j)

theorem updateJob_snd (s : Store) (i : String) (g : Job → Job) (now : Nat) :
    (Storage.updateJob s i g now).2
      = updateById i (fun j => { g j with updated_at := now }) s := rfl

theorem getJob_append_self {s : Store} {doc : Job} {i : String}
    (hnone : Storage.getJob s i = none) (hid : doc.id = i) :
    Storage.getJob (s ++ [doc]) i = some doc := by
  unfold Storage.getJob at *
  rw [List.find?_append, hnone]
  simp [hid]

theorem eligible_iff {now : Nat} {j : Job} :
    eligible now j = true ↔
      j.state = JobState.pending ∨
        (j.state = JobState.failed ∧
          (j.next_retry_at = none ∨ ∃ t, j.next_retry_at = some t ∧ t ≤ now)) := by
  unfold eligible
  cases hn : j.next_retry_at with
  | none => simp
  | some t =>
      simp only [Bool.or_eq_true, Bool.and_eq_true, decide_eq_true_eq]
      constructor
      · rintro (h | ⟨h, ht⟩)
        · exact Or.inl h
        · exact Or.inr ⟨h, Or.inr ⟨t, rfl, ht⟩⟩
      · rintro (h | ⟨h, hn' | ⟨t', ht', hle⟩⟩)
        · exact Or.inl h
        · cases hn'
        · cases ht'
          exact Or.inr ⟨h, hle⟩

/-- The document Queue.enqueue inserts for a valid fresh spec, after both
the queue-level `jobData.max_retries || config default` and the
store-level `job.max_retries || 3` defaulting. -/
def enqueuedDoc (cfg : Config) (spec : JobSpec) (now : Nat) : Job :=
  { id := spec.id.getD ""
    command := spec.command.getD ""
    state := JobState.pending
    attempts := 0
    max_retries :=
      if jsOrNat spec.max_retries cfg.max_retries = 0 then 3
      else jsOrNat spec.max_retries cfg.max_retries
    created_at := now
    updated_at := now
    next_retry_at := none
    worker_id := none
    output := none
    error := none }

theorem enqueue_invalid {cfg : Config} {s : Store} {spec : JobSpec} {now : Nat}
    (h : (optStrTruthy spec.id && optStrTruthy spec.command) = false) :
    Queue.enqueue cfg s spec now = (Except.error QueueError.invalidJob, s) := by
  unfold Queue.enqueue
  rw [h]
  rfl

theorem enqueue_dup {cfg : Config} {s : Store} {spec : JobSpec} {now : Nat} {x : Job}
    (hv : (optStrTruthy spec.id && optStrTruthy spec.command) = true)
    (hx : Storage.getJob s (spec.id.getD "") = some x) :
    Queue.enqueue cfg s spec now = (Except.error QueueError.duplicateJob, s) := by
  unfold Queue.enqueue
  rw [hv, hx]
  rfl

theorem enqueue_ok {cfg : Config} {s : Store} {spec : JobSpec} {now : Nat}
    (hv : (optStrTruthy spec.id && optStrTruthy spec.command) = true)
    (hg : Storage.getJob s (spec.id.getD "") = none) :
    Queue.enqueue cfg s spec now
      = (Except.ok (enqueuedDoc cfg spec now),
         s ++ [enqueuedDoc cfg spec now]) := by
  have hgd : Storage.getJob (s ++ [enqueuedDoc cfg spec now]) (spec.id.getD "")
      = some (enqueuedDoc cfg spec now) := getJob_append_self hg rfl
  unfold Queue.enqueue Storage.createJob
  rw [hv]
  simp only [enqueuedDoc] at hgd
  simp only [hg, hgd, enqueuedDoc]
  rw [if_pos trivial]

theorem failJob_dead_eq {cfg : Config} {s : Store} {i : String} {r : ExecResult}
    {w : String} {now : Nat} {job : Job}
    (hget : Storage.getJob s i = some job)
    (hmax : job.attempts + 1 ≥ job.max_retries) :
    Queue.failJob cfg s i r w now
      = Storage.updateJob s i (fun j =>
          { j with state := JobState.dead
                   attempts := job.attempts + 1
                   error := some (jsOrStr r.stderr r.error "Max retries exceeded")
                   output := some r.stdout
                   worker_id := none
                   next_retry_at := none }) now := by
  unfold Queue.failJob
  simp only [hget]
  rw [if_pos hmax]

theorem failJob_retry_eq {cfg : Config} {s : Store} {i : String} {r : ExecResult}
    {w : String} {now : Nat} {job : Job}
    (hget : Storage.getJob s i = some job)
    (hlt : job.attempts + 1 < job.max_retries) :
    Queue.failJob cfg s i r w now
      = Storage.updateJob s i (fun j =>
          { j with state := JobState.failed
                   attempts := job.attempts + 1
                   error := some (jsOrStr r.stderr r.error "Job execution failed")
                   output := some r.stdout
                   worker_id := none
                   next_retry_at :=
                     some (now + calculateBackoff (job.attempts + 1) cfg.backoff_base * 1000) }) now := by
  unfold Queue.failJob
  simp only [hget]
  rw [if_neg (not_le.mpr hlt)]

theorem releaseJob_processing_eq {s : Store} {i : String} {now : Nat} {job : Job}
    (hget : Storage.getJob s i = some job)
    (hp : job.state = JobState.processing) :
    Queue.releaseJob s i now
      = Storage.updateJob s i (fun j =>
          { j with state := JobState.pending, worker_id := none }) now := by
  unfold Queue.releaseJob
  simp only [hget]
  rw [if_pos hp]

theorem releaseJob_other_eq {s : Store} {i : String} {now : Nat} {job : Job}
    (hget : Storage.getJob s i = some job)
    (hp : job.state ≠ JobState.processing) :
    Queue.releaseJob s i now = (some job, s) := by
  unfold Queue.releaseJob
  simp only [hget]
  rw [if_neg hp]

/-- The reset record written by a successful DLQ retry. -/
def dlqResetDoc (job : Job) (maxRetries : Nat) (now : Nat) : Job :=
  { job with state := JobState.pending
             attempts := 0
             max_retries := maxRetries
             next_retry_at := none
             worker_id := none
             error := none
             updated_at := now }

theorem retryDLQJob_dead {s : Store} {i : String} {mr now : Nat} {job : Job}
    (hget : Storage.getJob s i = some job) (hd : job.state = JobState.dead) :
    Storage.retryDLQJob s i mr now
      = (Except.ok (dlqResetDoc job mr now),
         updateById i (fun j =>
           { j with state := JobState.pending, attempts := 0, max_retries := mr,
                    next_retry_at := none, worker_id := none, error := none,
                    updated_at := now }) s) := by
  unfold Storage.retryDLQJob
  simp only [hget]
  rw [if_pos hd]
  rw [updateJob_fst s i (fun j =>
      { j with state := JobState.pending, attempts := 0, max_retries := mr,
               next_retry_at := none, worker_id := none, error := none }) now
    (fun j => rfl), hget]
  rfl

theorem retryDLQJob_not_dead {s : Store} {i : String} {mr now : Nat} {job : Job}
    (hget : Storage.getJob s i = some job) (hd : job.state ≠ JobState.dead) :
    Storage.retryDLQJob s i mr now = (Except.error QueueError.notInDLQ, s) := by
  unfold Storage.retryDLQJob
  simp only [hget]
  rw [if_neg hd]

theorem retryDLQJob_absent {s : Store} {i : String} {mr now : Nat}
    (hget : Storage.getJob s i = none) :
    Storage.retryDLQJob s i mr now = (Except.error QueueError.notInDLQ, s) := by
  unfold Storage.retryDLQJob
  simp only [hget]

/-! ### The retry-time invariant -/

/-- The weakened retry-time invariant the code preserves: a job whose
next_retry_at is set is never dead. -/
def nraInv (s : Store) : Prop :=
  ∀ j ∈ s, j.next_retry_at ≠ none → j.state ≠ JobState.dead

theorem nraInv_updateById {s : Store} {i : String} {g : Job → Job}
    (h : nraInv s)
    (hg : ∀ j, (g j).next_retry_at ≠ none → (g j).state ≠ JobState.dead) :
    nraInv (updateById i g s) := by
  intro j' hj' hnra
  obtain ⟨j, hj, hje⟩ := mem_updateById hj'
  by_cases hji : j.id = i
  · rw [hje, if_pos hji] at hnra ⊢
    exact hg j hnra
  · rw [hje, if_neg hji] at hnra ⊢
    exact h j hj hnra

theorem nraInv_updateJob {s : Store} {i : String} {g : Job → Job} {now : Nat}
    (h : nraInv s)
    (hg : ∀ j, (g j).next_retry_at ≠ none → (g j).state ≠ JobState.dead) :
    nraInv (Storage.updateJob s i g now).2 := by
  refine nraInv_updateById h ?_
  intro j hnra
  exact hg j hnra

theorem nraInv_append {s : Store} {doc : Job} (h : nraInv s)
    (hd : doc.next_retry_at = none) : nraInv (s ++ [doc]) := by
  intro j hj hnra
  rcases List.mem_append.mp hj with hj | hj
  · exact h j hj hnra
  · rw [List.mem_singleton] at hj
    subst hj
    exact (hnra hd).elim

/-- Claim C5 (amended): every lifecycle operation preserves the invariant
that a job with next_retry_at set is not dead.  The stronger invariant of
the spec — next_retry_at set implies state failed — is refuted by
nraInv_failed_counterexample below: acquireJob, completeJob and releaseJob
do not clear next_retry_at, so a re-acquired failed job keeps its retry
time while processing. -/
theorem nraInv_not_dead_preserved (cfg : Config) (s : Store) (spec : JobSpec)
    (i : String) (r : ExecResult) (w : String) (now : Nat)
    (h : nraInv s) :
    nraInv (Queue.enqueue cfg s spec now).2 ∧
    nraInv (Storage.acquireJob s w now).2 ∧
    nraInv (Queue.completeJob s i r now).2 ∧
    nraInv (Queue.failJob cfg s i r w now).2 ∧
    nraInv (Queue.releaseJob s i now).2 ∧
    nraInv (Queue.retryDLQJob cfg s i now).2 := by
  refine ⟨?_, ?_, ?_, ?_, ?_, ?_⟩
  · -- enqueue
    by_cases hv : (optStrTruthy spec.id && optStrTruthy spec.command) = true
    · cases hg : Storage.getJob s (spec.id.getD "") with
      | some x => rw [enqueue_dup hv hg]; exact h
      | none =>
          rw [enqueue_ok hv hg]
          exact nraInv_append h rfl
    · rw [enqueue_invalid (Bool.eq_false_iff.mpr hv)]
      exact h
  · -- acquireJob
    cases hf : findEligible now s with
    | none => rw [acquireJob_eq_none hf]; exact h
    | some j =>
        rw [acquireJob_eq_some hf]
        exact nraInv_updateById h (fun k _ => by simp [setProcessing])
  · -- completeJob
    unfold Queue.completeJob
    refine nraInv_updateJob h ?_
    intro j hnra
    by_cases hs : r.stderr ≠ "" <;> simp [hs]
  · -- failJob
    cases hget : Storage.getJob s i with
    | none =>
        have hq : Queue.failJob cfg s i r w now = (none, s) := by
          unfold Queue.failJob
          rw [hget]
        rw [hq]
        exact h
    | some job =>
        by_cases hmax : job.attempts + 1 ≥ job.max_retries
        · rw [failJob_dead_eq hget hmax]
          exact nraInv_updateJob h (fun j hnra => absurd rfl hnra)
        · rw [failJob_retry_eq hget (not_le.mp hmax)]
          exact nraInv_updateJob h (fun j _ => by simp)
  · -- releaseJob
    cases hget : Storage.getJob s i with
    | none =>
        have hq : Queue.releaseJob s i now = (none, s) := by
          unfold Queue.releaseJob
          rw [hget]
        rw [hq]
        exact h
    | some job =>
        by_cases hp : job.state = JobState.processing
        · rw [releaseJob_processing_eq hget hp]
          exact nraInv_updateJob h (fun j _ => by simp)
        · rw [releaseJob_other_eq hget hp]
          exact h
  · -- retryDLQJob
    unfold Queue.retryDLQJob
    cases hget : Storage.getJob s i with
    | none => rw [retryDLQJob_absent hget]; exact h
    | some job =>
        by_cases hd : job.state = JobState.dead
        · rw [retryDLQJob_dead hget hd]
          exact nraInv_updateById h (fun j hnra => absurd rfl hnra)
        · rw [retryDLQJob_not_dead hget hd]
          exact h

/-- A minimal job record used in concrete witnesses. -/
def mkJob (i : String) (st : JobState) (c : Nat) : Job :=
  { id := i, command := "true", state := st, attempts := 0, max_retries := 3,
    created_at := c, updated_at := c, next_retry_at := none,
    worker_id := none, output := none, error := none }

/-- Store after enqueueing job "a" at time 0. -/
def traceStore1 : Store :=
  (Queue.enqueue ⟨3, 2⟩ [] ⟨some "a", some "true", none⟩ 0).2

/-- Store after failing job "a" once at time 10 (backoff schedules the
retry at time 2010). -/
def traceStore2 : Store :=
  (Queue.failJob ⟨3, 2⟩ traceStore1 "a" ⟨"", "", some "boom"⟩ "w1" 10).2

/-- Store after re-acquiring job "a" at time 5000, past its retry time. -/
def traceStore3 : Store :=
  (Storage.acquireJob traceStore2 "w1" 5000).2

/-- Claim C5 counterexample: after enqueue and one failure the claimed
invariant — next_retry_at set implies state failed — holds in traceStore2,
and one acquireJob step (to traceStore3) breaks it: the re-acquired job is
processing with next_retry_at still set to 2010. -/
theorem nraInv_failed_counterexample :
    (∀ j ∈ traceStore2, j.next_retry_at ≠ none → j.state = JobState.failed) ∧
    (∃ j ∈ traceStore3, j.next_retry_at ≠ none ∧ ¬ j.state = JobState.failed) := by
  decide

/-- Witness for the amended claim C5 at the concrete store traceStore2. -/
theorem nraInv_not_dead_preserved_witness :
    nraInv traceStore2 ∧
    (nraInv (Queue.enqueue ⟨3, 2⟩ traceStore2 ⟨some "b", some "true", none⟩ 5000).2 ∧
     nraInv (Storage.acquireJob traceStore2 "w1" 5000).2 ∧
     nraInv (Queue.completeJob traceStore2 "a" ⟨"", "", none⟩ 5000).2 ∧
     nraInv (Queue.failJob ⟨3, 2⟩ traceStore2 "a" ⟨"", "", none⟩ "w1" 5000).2 ∧
     nraInv (Queue.releaseJob traceStore2 "a" 5000).2 ∧
     nraInv (Queue.retryDLQJob ⟨3, 2⟩ traceStore2 "a" 5000).2) :=
  ⟨by simp only [nraInv]; decide,
   nraInv_not_dead_preserved ⟨3, 2⟩ traceStore2 ⟨some "b", some "true", none⟩ "a"
     ⟨"", "", none⟩ "w1" 5000 (by simp only [nraInv]; decide)⟩

/-- Claim C1: for a store of distinct job ids with M eligible jobs and
N > M racing acquire calls — each call a single atomic conditional update
on the store, an arbitrary interleaving being some sequential order of
these atomic steps, which is the sole cross-process exclusion mechanism —
exactly M calls return jobs, the returned jobs have pairwise distinct ids
(no job is handed to two callers), and the other N - M calls return none. -/
theorem acquireJob_race_exclusion (now : Nat) (s : Store) (ws : List String)
    (hnodup : (s.map Job.id).Nodup)
    (hlt : countEligible now s < ws.length) :
    ((runAcquires now s ws).1.filterMap id).length = countEligible now s ∧
    (((runAcquires now s ws).1.filterMap id).map Job.id).Nodup ∧
    (runAcquires now s ws).1.count none = ws.length - countEligible now s := by
  obtain ⟨h1, h2, -, h4⟩ := runAcquires_spec now ws s hnodup
  have h5 := count_none_add_filterMap (runAcquires now s ws).1
  refine ⟨?_, h4, ?_⟩ <;> omega

/-- Witness for claim C1: two eligible jobs, three racing workers. -/
theorem acquireJob_race_exclusion_witness :
    ((([mkJob "a" JobState.pending 1, mkJob "b" JobState.pending 2] : Store).map
        Job.id).Nodup ∧
      countEligible 100 [mkJob "a" JobState.pending 1, mkJob "b" JobState.pending 2]
        < 3) ∧
    (((runAcquires 100 [mkJob "a" JobState.pending 1, mkJob "b" JobState.pending 2]
          ["w1", "w2", "w3"]).1.filterMap id).length
        = countEligible 100 [mkJob "a" JobState.pending 1, mkJob "b" JobState.pending 2] ∧
     (((runAcquires 100 [mkJob "a" JobState.pending 1, mkJob "b" JobState.pending 2]
          ["w1", "w2", "w3"]).1.filterMap id).map Job.id).Nodup ∧
     (runAcquires 100 [mkJob "a" JobState.pending 1, mkJob "b" JobState.pending 2]
          ["w1", "w2", "w3"]).1.count none
        = 3 - countEligible 100 [mkJob "a" JobState.pending 1, mkJob "b" JobState.pending 2]) :=
  ⟨⟨by decide, by decide⟩,
   acquireJob_race_exclusion 100
     [mkJob "a" JobState.pending 1, mkJob "b" JobState.pending 2]
     ["w1", "w2", "w3"] (by decide) (by decide)⟩

/-- Claim C2: an acquired job comes from a stored job that was pending, or
failed with next_retry_at null or ≤ now — never processing, completed or
dead — of minimal created_at among eligible jobs; it is returned in state
processing carrying the worker id of the caller; and acquire returns none
exactly when no eligible job exists. -/
theorem acquireJob_eligibility_fifo (s : Store) (wid : String) (now : Nat) :
    (∀ x, (Storage.acquireJob s wid now).1 = some x →
      ∃ j ∈ s, x = setProcessing wid now j ∧
        (j.state = JobState.pending ∨
          (j.state = JobState.failed ∧
            (j.next_retry_at = none ∨ ∃ t, j.next_retry_at = some t ∧ t ≤ now))) ∧
        j.state ≠ JobState.processing ∧ j.state ≠ JobState.completed ∧
        j.state ≠ JobState.dead ∧
        (∀ k ∈ s, eligible now k = true → j.created_at ≤ k.created_at) ∧
        x.state = JobState.processing ∧ x.worker_id = some wid) ∧
    ((Storage.acquireJob s wid now).1 = none ↔ ∀ k ∈ s, eligible now k = false) := by
  constructor
  · intro x hx
    cases hf : findEligible now s with
    | none =>
        rw [acquireJob_eq_none hf] at hx
        simp at hx
    | some j =>
        rw [acquireJob_eq_some hf] at hx
        simp only [Option.some_inj] at hx
        obtain ⟨hmem, helig, hmin⟩ := findEligible_some hf
        refine ⟨j, hmem, hx.symm, eligible_iff.mp helig, ?_, ?_, ?_, hmin, ?_, ?_⟩
        · rcases eligible_state helig with h | h <;> simp [h]
        · rcases eligible_state helig with h | h <;> simp [h]
        · rcases eligible_state helig with h | h <;> simp [h]
        · rw [← hx]
          rfl
        · rw [← hx]
          rfl
  · constructor
    · intro hnone k hk
      cases hf : findEligible now s with
      | none => exact findEligible_eq_none.mp hf k hk
      | some j =>
          rw [acquireJob_eq_some hf] at hnone
          simp at hnone
    · intro hall
      rw [acquireJob_eq_none (findEligible_eq_none.mpr hall)]

/-- Witness for claim C2, at a one-job pending store. -/
theorem acquireJob_eligibility_fifo_witness :
    ∃ j ∈ ([mkJob "c" JobState.pending 7] : Store),
      setProcessing "w9" 3 (mkJob "c" JobState.pending 7) = setProcessing "w9" 3 j ∧
        (j.state = JobState.pending ∨
          (j.state = JobState.failed ∧
            (j.next_retry_at = none ∨ ∃ t, j.next_retry_at = some t ∧ t ≤ 3))) ∧
        j.state ≠ JobState.processing ∧ j.state ≠ JobState.completed ∧
        j.state ≠ JobState.dead ∧
        (∀ k ∈ ([mkJob "c" JobState.pending 7] : Store),
          eligible 3 k = true → j.created_at ≤ k.created_at) ∧
        (setProcessing "w9" 3 (mkJob "c" JobState.pending 7)).state
            = JobState.processing ∧
        (setProcessing "w9" 3 (mkJob "c" JobState.pending 7)).worker_id = some "w9" :=
  (acquireJob_eligibility_fifo [mkJob "c" JobState.pending 7] "w9" 3).1
    (setProcessing "w9" 3 (mkJob "c" JobState.pending 7)) (by decide)

/-- Claim C3: failJob on an existing job whose incremented attempt count
reaches max_retries moves it to dead with attempts incremented, worker and
next_retry_at cleared, and the error recorded by preference — stderr if
non-empty, else a non-empty error message, else the generic message — and
a dead job is never returned by acquireJob, regardless of elapsed time. -/
theorem failJob_dead_path (cfg : Config) (s : Store) (i : String)
    (r : ExecResult) (w : String) (now : Nat) (job : Job)
    (hget : Storage.getJob s i = some job)
    (hmax : job.attempts + 1 ≥ job.max_retries) :
    (Queue.failJob cfg s i r w now).1
      = some { job with
          state := JobState.dead
          attempts := job.attempts + 1
          error := some (jsOrStr r.stderr r.error "Max retries exceeded")
          output := some r.stdout
          worker_id := none
          next_retry_at := none
          updated_at := now } ∧
    (∀ (s₂ : Store) (w₂ : String) (t : Nat) (x d : Job),
        (s₂.map Job.id).Nodup → d ∈ s₂ → d.state = JobState.dead →
        (Storage.acquireJob s₂ w₂ t).1 = some x → x.id ≠ d.id) := by
  constructor
  · rw [failJob_dead_eq hget hmax,
        updateJob_fst s i (fun j =>
          { j with state := JobState.dead
                   attempts := job.attempts + 1
                   error := some (jsOrStr r.stderr r.error "Max retries exceeded")
                   output := some r.stdout
                   worker_id := none
                   next_retry_at := none }) now (fun j => rfl),
        hget]
    rfl
  · intro s₂ w₂ t x d hnodup hd hdead hacq
    cases hf : findEligible t s₂ with
    | none =>
        rw [acquireJob_eq_none hf] at hacq
        simp at hacq
    | some j =>
        rw [acquireJob_eq_some hf] at hacq
        simp only [Option.some_inj] at hacq
        obtain ⟨hmem, helig, -⟩ := findEligible_some hf
        intro hxd
        rw [← hacq, setProcessing_id] at hxd
        have hjd : j = d := List.inj_on_of_nodup_map hnodup hmem hd hxd
        rw [hjd] at helig
        rcases eligible_state helig with h | h <;> rw [hdead] at h <;> simp at h

/-- A job one failure away from dead-lettering, for witnesses. -/
def lastChanceJob : Job :=
  { id := "d", command := "false", state := JobState.processing, attempts := 2,
    max_retries := 3, created_at := 0, updated_at := 0, next_retry_at := none,
    worker_id := some "w1", output := none, error := none }

/-- Witness for claim C3: the third failure of a three-retry job. -/
theorem failJob_dead_path_witness :
    (Storage.getJob [lastChanceJob] "d" = some lastChanceJob ∧
      lastChanceJob.attempts + 1 ≥ lastChanceJob.max_retries) ∧
    (Queue.failJob ⟨3, 2⟩ [lastChanceJob] "d" ⟨"", "", none⟩ "w1" 99).1
      = some { lastChanceJob with
          state := JobState.dead
          attempts := lastChanceJob.attempts + 1
          error := some (jsOrStr "" none "Max retries exceeded")
          output := some ""
          worker_id := none
          next_retry_at := none
          updated_at := 99 } :=
  ⟨⟨by decide, by decide⟩,
   (failJob_dead_path ⟨3, 2⟩ [lastChanceJob] "d" ⟨"", "", none⟩ "w1" 99 lastChanceJob
      (by decide) (by decide)).1⟩

/-- Claim C4: failJob on an existing job still under its retry budget moves
it to failed with attempts incremented, worker cleared, error recorded by
the same preference with the generic message "Job execution failed", and
next_retry_at = now + base ^ (attempts + 1) seconds (1000 ms each); the
backoff function is exactly base ^ attempt on the 1-based failed-attempt
count, a deterministic pure function. -/
theorem failJob_retry_backoff (cfg : Config) (s : Store) (i : String)
    (r : ExecResult) (w : String) (now : Nat) (job : Job)
    (hget : Storage.getJob s i = some job)
    (hlt : job.attempts + 1 < job.max_retries) :
    (Queue.failJob cfg s i r w now).1
      = some { job with
          state := JobState.failed
          attempts := job.attempts + 1
          error := some (jsOrStr r.stderr r.error "Job execution failed")
          output := some r.stdout
          worker_id := none
          next_retry_at := some (now + cfg.backoff_base ^ (job.attempts + 1) * 1000)
          updated_at := now } ∧
    (∀ a b : Nat, calculateBackoff a b = b ^ a) := by
  constructor
  · rw [failJob_retry_eq hget hlt,
        updateJob_fst s i (fun j =>
          { j with state := JobState.failed
                   attempts := job.attempts + 1
                   error := some (jsOrStr r.stderr r.error "Job execution failed")
                   output := some r.stdout
                   worker_id := none
                   next_retry_at :=
                     some (now + calculateBackoff (job.attempts + 1) cfg.backoff_base * 1000) })
          now (fun j => rfl),
        hget]
    rfl
  · intro a b
    rfl

/-- A freshly acquired first-attempt job, for witnesses. -/
def retryJob : Job :=
  { id := "e", command := "false", state := JobState.processing, attempts := 0,
    max_retries := 3, created_at := 0, updated_at := 0, next_retry_at := none,
    worker_id := some "w1", output := none, error := none }

/-- Witness for claim C4: first failure of a three-retry job with base 2. -/
theorem failJob_retry_backoff_witness :
    (Storage.getJob [retryJob] "e" = some retryJob ∧
      retryJob.attempts + 1 < retryJob.max_retries) ∧
    ((Queue.failJob ⟨3, 2⟩ [retryJob] "e" ⟨"out", "bad", none⟩ "w1" 50).1
      = some { retryJob with
          state := JobState.failed
          attempts := retryJob.attempts + 1
          error := some (jsOrStr "bad" none "Job execution failed")
          output := some "out"
          worker_id := none
          next_retry_at := some (50 + 2 ^ (retryJob.attempts + 1) * 1000)
          updated_at := 50 } ∧
     (∀ a b : Nat, calculateBackoff a b = b ^ a)) :=
  ⟨⟨by decide, by decide⟩,
   failJob_retry_backoff ⟨3, 2⟩ [retryJob] "e" ⟨"out", "bad", none⟩ "w1" 50 retryJob
     (by decide) (by decide)⟩

theorem jsOrNat_pos {o : Option Nat} {d : Nat} (hd : 0 < d) : 0 < jsOrNat o d := by
  cases o with
  | none => exact hd
  | some n =>
      rw [show jsOrNat (some n) d = if n = 0 then d else n from rfl]
      by_cases hn : n = 0
      · rw [if_pos hn]
        exact hd
      · rw [if_neg hn]
        omega

/-- Claim C6: enqueue fails with the validation error exactly when id or
command is missing or empty; with both valid it fails with the duplicate
error exactly when a job with that id already exists; on either error the
store — in particular the existing record — is unchanged; and otherwise it
appends exactly one job with state pending, attempts 0 and max_retries the
nonzero spec value or else the (positive) configured default, returning
the persisted record. -/
theorem enqueue_spec (cfg : Config) (s : Store) (spec : JobSpec) (now : Nat)
    (hcfg : 0 < cfg.max_retries) :
    ((Queue.enqueue cfg s spec now).1 = Except.error QueueError.invalidJob ↔
      ¬(optStrTruthy spec.id = true ∧ optStrTruthy spec.command = true)) ∧
    ((optStrTruthy spec.id = true ∧ optStrTruthy spec.command = true) →
      ((Queue.enqueue cfg s spec now).1 = Except.error QueueError.duplicateJob ↔
        ∃ x, Storage.getJob s (spec.id.getD "") = some x)) ∧
    (∀ e, (Queue.enqueue cfg s spec now).1 = Except.error e →
      (Queue.enqueue cfg s spec now).2 = s) ∧
    ((optStrTruthy spec.id = true ∧ optStrTruthy spec.command = true ∧
        Storage.getJob s (spec.id.getD "") = none) →
      (Queue.enqueue cfg s spec now).1 = Except.ok (enqueuedDoc cfg spec now) ∧
      (Queue.enqueue cfg s spec now).2 = s ++ [enqueuedDoc cfg spec now] ∧
      (enqueuedDoc cfg spec now).state = JobState.pending ∧
      (enqueuedDoc cfg spec now).attempts = 0 ∧
      (enqueuedDoc cfg spec now).max_retries = jsOrNat spec.max_retries cfg.max_retries ∧
      Storage.getJob (Queue.enqueue cfg s spec now).2 (spec.id.getD "")
          = some (enqueuedDoc cfg spec now)) := by
  by_cases hv : (optStrTruthy spec.id && optStrTruthy spec.command) = true
  · have hv2 := hv
    rw [Bool.and_eq_true] at hv2
    cases hg : Storage.getJob s (spec.id.getD "") with
    | some x =>
        have he := @enqueue_dup cfg s spec now x hv hg
        refine ⟨?_, ?_, ?_, ?_⟩
        · rw [he]
          constructor
          · intro h
            simp at h
          · intro h
            exact absurd ⟨hv2.1, hv2.2⟩ h
        · intro h12
          rw [he]
          constructor
          · intro _
            exact ⟨x, rfl⟩
          · intro _
            rfl
        · intro e h
          rw [he]
        · rintro ⟨h1, h2, hnone⟩
          simp at hnone
    | none =>
        have he := @enqueue_ok cfg s spec now hv hg
        refine ⟨?_, ?_, ?_, ?_⟩
        · rw [he]
          constructor
          · intro h
            simp at h
          · intro h
            exact absurd ⟨hv2.1, hv2.2⟩ h
        · intro h12
          rw [he]
          constructor
          · intro h
            simp at h
          · rintro ⟨y, hy⟩
            simp at hy
        · intro e h
          rw [he] at h
          simp at h
        · intro h123
          have hval : (enqueuedDoc cfg spec now).max_retries
              = jsOrNat spec.max_retries cfg.max_retries := by
            show (if jsOrNat spec.max_retries cfg.max_retries = 0 then 3
                  else jsOrNat spec.max_retries cfg.max_retries)
                = jsOrNat spec.max_retries cfg.max_retries
            rw [if_neg (Nat.pos_iff_ne_zero.mp (jsOrNat_pos hcfg))]
          refine ⟨by rw [he], by rw [he], rfl, rfl, hval, ?_⟩
          rw [he]
          exact getJob_append_self hg rfl
  · have hvf : (optStrTruthy spec.id && optStrTruthy spec.command) = false :=
      Bool.eq_false_iff.mpr hv
    have he := @enqueue_invalid cfg s spec now hvf
    refine ⟨?_, ?_, ?_, ?_⟩
    · rw [he]
      constructor
      · intro _
        rintro ⟨h1, h2⟩
        rw [h1, h2] at hvf
        simp at hvf
      · intro _
        rfl
    · rintro ⟨h1, h2⟩
      rw [h1, h2] at hvf
      simp at hvf
    · intro e h
      rw [he]
    · rintro ⟨h1, h2, -⟩
      rw [h1, h2] at hvf
      simp at hvf

/-- Witness for claim C6: a valid fresh enqueue into the empty store. -/
theorem enqueue_spec_witness :
    (0 < (3 : Nat)) ∧
    ((Queue.enqueue ⟨3, 2⟩ [] ⟨some "f", some "true", none⟩ 5).1
        = Except.ok (enqueuedDoc ⟨3, 2⟩ ⟨some "f", some "true", none⟩ 5) ∧
     (Queue.enqueue ⟨3, 2⟩ [] ⟨some "f", some "true", none⟩ 5).2
        = [] ++ [enqueuedDoc ⟨3, 2⟩ ⟨some "f", some "true", none⟩ 5] ∧
     (enqueuedDoc ⟨3, 2⟩ ⟨some "f", some "true", none⟩ 5).state = JobState.pending ∧
     (enqueuedDoc ⟨3, 2⟩ ⟨some "f", some "true", none⟩ 5).attempts = 0 ∧
     (enqueuedDoc ⟨3, 2⟩ ⟨some "f", some "true", none⟩ 5).max_retries
        = jsOrNat none 3 ∧
     Storage.getJob (Queue.enqueue ⟨3, 2⟩ [] ⟨some "f", some "true", none⟩ 5).2
        ((some "f").getD "")
        = some (enqueuedDoc ⟨3, 2⟩ ⟨some "f", some "true", none⟩ 5)) :=
  ⟨by decide,
   (enqueue_spec ⟨3, 2⟩ [] ⟨some "f", some "true", none⟩ 5 (by decide)).2.2.2
     ⟨by decide, by decide, by decide⟩⟩

/-- Claim C7: retryDLQJob succeeds exactly on an existing dead job; in the
error case it fails with the not-in-DLQ error and leaves the store — hence
the record of the job — unchanged; on success it resets state to pending,
attempts to 0, max_retries to the currently configured default, clears
next_retry_at, worker_id and error, and the reset job is eligible for
acquisition at any time. -/
theorem retryDLQJob_spec (cfg : Config) (s : Store) (i : String) (now : Nat) :
    (∀ job, Storage.getJob s i = some job → job.state = JobState.dead →
      (Queue.retryDLQJob cfg s i now).1
          = Except.ok (dlqResetDoc job cfg.max_retries now) ∧
      (dlqResetDoc job cfg.max_retries now).state = JobState.pending ∧
      (dlqResetDoc job cfg.max_retries now).attempts = 0 ∧
      (dlqResetDoc job cfg.max_retries now).max_retries = cfg.max_retries ∧
      (dlqResetDoc job cfg.max_retries now).next_retry_at = none ∧
      (dlqResetDoc job cfg.max_retries now).worker_id = none ∧
      (dlqResetDoc job cfg.max_retries now).error = none ∧
      (∀ t, eligible t (dlqResetDoc job cfg.max_retries now) = true)) ∧
    (∀ job, Storage.getJob s i = some job → job.state ≠ JobState.dead →
      (Queue.retryDLQJob cfg s i now).1 = Except.error QueueError.notInDLQ ∧
      (Queue.retryDLQJob cfg s i now).2 = s) ∧
    (Storage.getJob s i = none →
      (Queue.retryDLQJob cfg s i now).1 = Except.error QueueError.notInDLQ ∧
      (Queue.retryDLQJob cfg s i now).2 = s) ∧
    (∀ x, (Queue.retryDLQJob cfg s i now).1 = Except.ok x →
      ∃ job, Storage.getJob s i = some job ∧ job.state = JobState.dead) := by
  refine ⟨?_, ?_, ?_, ?_⟩
  · intro job hget hd
    unfold Queue.retryDLQJob
    rw [retryDLQJob_dead hget hd]
    exact ⟨rfl, rfl, rfl, rfl, rfl, rfl, rfl, fun t => rfl⟩
  · intro job hget hd
    unfold Queue.retryDLQJob
    rw [retryDLQJob_not_dead hget hd]
    exact ⟨rfl, rfl⟩
  · intro hget
    unfold Queue.retryDLQJob
    rw [retryDLQJob_absent hget]
    exact ⟨rfl, rfl⟩
  · intro x hx
    unfold Queue.retryDLQJob at hx
    cases hget : Storage.getJob s i with
    | none =>
        rw [retryDLQJob_absent hget] at hx
        simp at hx
    | some job =>
        by_cases hd : job.state = JobState.dead
        · exact ⟨job, rfl, hd⟩
        · rw [retryDLQJob_not_dead hget hd] at hx
          simp at hx

/-- A dead-lettered job, for the DLQ-retry witness. -/
def deadJob : Job :=
  { id := "g", command := "false", state := JobState.dead, attempts := 3,
    max_retries := 3, created_at := 0, updated_at := 20, next_retry_at := none,
    worker_id := none, output := none, error := some "Max retries exceeded" }

/-- Witness for claim C7: resurrecting a dead job. -/
theorem retryDLQJob_spec_witness :
    (Storage.getJob [deadJob] "g" = some deadJob ∧
      deadJob.state = JobState.dead) ∧
    ((Queue.retryDLQJob ⟨3, 2⟩ [deadJob] "g" 30).1
        = Except.ok (dlqResetDoc deadJob 3 30) ∧
     (dlqResetDoc deadJob 3 30).state = JobState.pending ∧
     (dlqResetDoc deadJob 3 30).attempts = 0 ∧
     (dlqResetDoc deadJob 3 30).max_retries = 3 ∧
     (dlqResetDoc deadJob 3 30).next_retry_at = none ∧
     (dlqResetDoc deadJob 3 30).worker_id = none ∧
     (dlqResetDoc deadJob 3 30).error = none ∧
     (∀ t, eligible t (dlqResetDoc deadJob 3 30) = true)) :=
  ⟨⟨by decide, by decide⟩,
   (retryDLQJob_spec ⟨3, 2⟩ [deadJob] "g" 30).1 deadJob (by decide) (by decide)⟩

/-- The record written by releaseJob for a processing job. -/
def releasedDoc (job : Job) (now : Nat) : Job :=
  { job with state := JobState.pending, worker_id := none, updated_at := now }

/-- Claim C8: releaseJob on an existing processing job resets it to pending
with worker_id cleared while attempts, command, created_at, max_retries,
next_retry_at, output and error are unchanged (no attempt increment); on a
job in any other state it performs no store write and returns the job
unchanged. -/
theorem releaseJob_spec (s : Store) (i : String) (now : Nat) (job : Job)
    (hget : Storage.getJob s i = some job) :
    (job.state = JobState.processing →
      (Queue.releaseJob s i now).1 = some (releasedDoc job now) ∧
      (releasedDoc job now).state = JobState.pending ∧
      (releasedDoc job now).worker_id = none ∧
      (releasedDoc job now).attempts = job.attempts ∧
      (releasedDoc job now).command = job.command ∧
      (releasedDoc job now).created_at = job.created_at ∧
      (releasedDoc job now).max_retries = job.max_retries ∧
      (releasedDoc job now).next_retry_at = job.next_retry_at ∧
      (releasedDoc job now).output = job.output ∧
      (releasedDoc job now).error = job.error) ∧
    (job.state ≠ JobState.processing →
      (Queue.releaseJob s i now).1 = some job ∧
      (Queue.releaseJob s i now).2 = s) := by
  constructor
  · intro hp
    rw [releaseJob_processing_eq hget hp,
        updateJob_fst s i (fun j =>
          { j with state := JobState.pending, worker_id := none }) now
          (fun j => rfl),
        hget]
    exact ⟨rfl, rfl, rfl, rfl, rfl, rfl, rfl, rfl, rfl, rfl⟩
  · intro hp
    rw [releaseJob_other_eq hget hp]
    exact ⟨rfl, rfl⟩

/-- Witness for claim C8: releasing the processing job retryJob. -/
theorem releaseJob_spec_witness :
    (Storage.getJob [retryJob] "e" = some retryJob ∧
      retryJob.state = JobState.processing) ∧
    ((Queue.releaseJob [retryJob] "e" 70).1 = some (releasedDoc retryJob 70) ∧
     (releasedDoc retryJob 70).state = JobState.pending ∧
     (releasedDoc retryJob 70).worker_id = none ∧
     (releasedDoc retryJob 70).attempts = retryJob.attempts ∧
     (releasedDoc retryJob 70).command = retryJob.command ∧
     (releasedDoc retryJob 70).created_at = retryJob.created_at ∧
     (releasedDoc retryJob 70).max_retries = retryJob.max_retries ∧
     (releasedDoc retryJob 70).next_retry_at = retryJob.next_retry_at ∧
     (releasedDoc retryJob 70).output = retryJob.output ∧
     (releasedDoc retryJob 70).error = retryJob.error) :=
  ⟨⟨by decide, by decide⟩,
   (releaseJob_spec [retryJob] "e" 70 retryJob (by decide)).1 (by decide)⟩

/-- Claim C9: an enqueue spec whose max_retries is 0 — or absent, the other
falsy case — gets the configured default rather than the supplied value;
in particular a caller cannot create a job with max_retries 0 through
enqueue. -/
theorem enqueue_zero_max_retries_default (cfg : Config) (s : Store)
    (spec : JobSpec) (now : Nat) (hcfg : 0 < cfg.max_retries)
    (hz : spec.max_retries = some 0 ∨ spec.max_retries = none)
    (hv : (optStrTruthy spec.id && optStrTruthy spec.command) = true)
    (hg : Storage.getJob s (spec.id.getD "") = none) :
    (Queue.enqueue cfg s spec now).1 = Except.ok (enqueuedDoc cfg spec now) ∧
    (enqueuedDoc cfg spec now).max_retries = cfg.max_retries ∧
    (enqueuedDoc cfg spec now).max_retries ≠ 0 := by
  have hjs : jsOrNat spec.max_retries cfg.max_retries = cfg.max_retries := by
    rcases hz with hz | hz <;> simp [jsOrNat, hz]
  have hval : (enqueuedDoc cfg spec now).max_retries = cfg.max_retries := by
    show (if jsOrNat spec.max_retries cfg.max_retries = 0 then 3
          else jsOrNat spec.max_retries cfg.max_retries) = cfg.max_retries
    rw [hjs, if_neg (Nat.pos_iff_ne_zero.mp hcfg)]
  refine ⟨by rw [enqueue_ok hv hg], hval, ?_⟩
  rw [hval]
  exact Nat.pos_iff_ne_zero.mp hcfg

/-- Witness for claim C9: enqueue with max_retries 0 under default 3. -/
theorem enqueue_zero_max_retries_default_witness :
    (0 < (3 : Nat) ∧
      ((some 0 : Option Nat) = some 0 ∨ (some 0 : Option Nat) = none) ∧
      (optStrTruthy (some "h") && optStrTruthy (some "true")) = true ∧
      Storage.getJob [] ((some "h" : Option String).getD "") = none) ∧
    ((Queue.enqueue ⟨3, 2⟩ [] ⟨some "h", some "true", some 0⟩ 8).1
        = Except.ok (enqueuedDoc ⟨3, 2⟩ ⟨some "h", some "true", some 0⟩ 8) ∧
     (enqueuedDoc ⟨3, 2⟩ ⟨some "h", some "true", some 0⟩ 8).max_retries = 3 ∧
     (enqueuedDoc ⟨3, 2⟩ ⟨some "h", some "true", some 0⟩ 8).max_retries ≠ 0) :=
  ⟨⟨by decide, Or.inl rfl, by decide, by decide⟩,
   enqueue_zero_max_retries_default ⟨3, 2⟩ [] ⟨some "h", some "true", some 0⟩ 8
     (by decide) (Or.inl rfl) (by decide) (by decide)⟩

/-- The record written by completeJob for an existing job when the stderr
of the result is empty. -/
def completedDoc (job : Job) (out : String) (now : Nat) : Job :=
  { job with
      state := JobState.completed
      output := some out
      worker_id := none
      updated_at := now }

/-- Claim C10: completeJob with empty stderr leaves the error field of the
job unchanged; hence a job that recorded an error on an earlier failed
attempt and is later completed successfully keeps that error message
alongside state completed. -/
theorem completeJob_preserves_error (s : Store) (i : String) (r : ExecResult)
    (now : Nat) (job : Job) (hget : Storage.getJob s i = some job)
    (hstderr : r.stderr = "") :
    (Queue.completeJob s i r now).1 = some (completedDoc job r.stdout now) ∧
    (completedDoc job r.stdout now).error = job.error ∧
    (∀ x, (Queue.completeJob s i r now).1 = some x →
      x.error = job.error ∧ x.state = JobState.completed) := by
  have h1 : (Queue.completeJob s i r now).1
      = some (completedDoc job r.stdout now) := by
    unfold Queue.completeJob
    rw [updateJob_fst s i (fun j =>
        let j' := { j with state := JobState.completed
                           output := some r.stdout
                           worker_id := none }
        if r.stderr ≠ "" then { j' with error := some r.stderr } else j') now
      (fun j => by by_cases hs : r.stderr ≠ "" <;> simp [hs]), hget]
    simp [hstderr, completedDoc]
  refine ⟨h1, rfl, ?_⟩
  intro x hx
  rw [h1] at hx
  simp only [Option.some_inj] at hx
  rw [← hx]
  exact ⟨rfl, rfl⟩

/-- The single record of traceStore3: job "a" re-acquired after its first
failure, still carrying the recorded error. -/
def traceJob3 : Job :=
  { id := "a", command := "true", state := JobState.processing, attempts := 1,
    max_retries := 3, created_at := 0, updated_at := 5000,
    next_retry_at := some 2010, worker_id := some "w1", output := some "",
    error := some "boom" }

/-- Witness for claim C10: completing the previously failed job keeps the
recorded error "boom" next to state completed. -/
theorem completeJob_preserves_error_witness :
    (Storage.getJob traceStore3 "a" = some traceJob3 ∧
      (("" : String) = "") ∧ traceJob3.error = some "boom") ∧
    ((Queue.completeJob traceStore3 "a" ⟨"done", "", none⟩ 9000).1
        = some (completedDoc traceJob3 "done" 9000) ∧
     (completedDoc traceJob3 "done" 9000).error = traceJob3.error ∧
     (∀ x, (Queue.completeJob traceStore3 "a" ⟨"done", "", none⟩ 9000).1 = some x →
        x.error = traceJob3.error ∧ x.state = JobState.completed)) :=
  ⟨⟨by decide, rfl, by decide⟩,
   completeJob_preserves_error traceStore3 "a" ⟨"done", "", none⟩ 9000 traceJob3
     (by decide) rfl⟩
